import Mathlib

/-!
Verification of the terrain-aware pacing engine (running-calculator).

The source is JavaScript; numbers are modeled as exact rationals (ℚ).
JavaScript `Infinity` (produced by the moving-time function when a segment
speed is non-positive) is modeled as `none : Option ℚ`; every other numeric
value in the engine stays finite, so `some t` models an ordinary number.
`Math.round` / `Math.floor` are modeled exactly (`jsRound`, `Int.floor`).
The haversine distance is a transcendental real-valued function; the pipeline
is parameterized over an arbitrary distance function `hav`, and no claim
settled here depends on the values it returns.
-/

/-- JavaScript `Math.round`: nearest integer, ties toward +∞. -/
def jsRound (x : ℚ) : ℤ := ⌊x + 1/2⌋

/-- Runner profile; the source compares against the string "trained" and treats
everything else as the standard profile. -/
inductive Profile where
  | trained
  | standard
deriving DecidableEq

/-- A GPS track point after parsing (lat/lon in degrees, elevation in meters).
The browser parser normalizes missing or non-finite elevations to 0, so parsed
points always carry a finite elevation. -/
structure Point where
  lat : ℚ
  lon : ℚ
  ele : ℚ
deriving Inhabited, DecidableEq

/-- A resampled point (source: objects `{index, distanceM, lat, lon, ele}`
pushed by `resamplePoints`). -/
structure RPoint where
  idx : ℕ
  distanceM : ℚ
  lat : ℚ
  lon : ℚ
  ele : ℚ
deriving Inhabited, DecidableEq

/-- A segment between two consecutive resampled points (source: objects pushed
in step 7 of `calculatePacing`). -/
structure Segment where
  fromM : ℚ
  toM : ℚ
  lengthM : ℚ
  deltaElevM : ℚ
  slopePct : ℚ
deriving Inhabited, DecidableEq

/-- Source `pickSpeedFromRange(minKmh, maxKmh, prudence)`. -/
def pickSpeedFromRange (minKmh maxKmh prudence : ℚ) : ℚ :=
  maxKmh - prudence * (maxKmh - minKmh)

/-- Source `calculateSpeedForSlope(slopePct, vFlatKmh, profile, prudence)`
(script-browser.js lines 145-207), translated branch by branch in source
order; `Math.abs(slopePct)` is `|slopePct|`. -/
def calculateSpeedForSlope (slopePct vFlatKmh : ℚ) (profile : Profile) (prudence : ℚ) : ℚ :=
  if slopePct ≥ -1 ∧ slopePct ≤ 1 then vFlatKmh
  else if slopePct > 1 ∧ slopePct ≤ 12 then vFlatKmh / (1 + 0.04 * slopePct)
  else if slopePct > 12 ∧ slopePct ≤ 15 then
    match profile with
    | .trained => pickSpeedFromRange 5.45 6.0 prudence
    | .standard => pickSpeedFromRange 4.62 5.45 prudence
  else if slopePct > 15 ∧ slopePct ≤ 20 then
    match profile with
    | .trained => pickSpeedFromRange 4.80 5.45 prudence
    | .standard => pickSpeedFromRange 4.0 4.62 prudence
  else if slopePct > 20 then
    match profile with
    | .trained => pickSpeedFromRange 4.0 4.62 prudence
    | .standard => pickSpeedFromRange 3.33 4.0 prudence
  else if slopePct < -1 ∧ slopePct ≥ -3 then vFlatKmh / (1 - 0.02 * |slopePct|)
  else if slopePct < -3 ∧ slopePct ≥ -4 then vFlatKmh / ((1 - 0.02 * |slopePct|) * 1.05)
  else if slopePct < -4 ∧ slopePct ≥ -6 then vFlatKmh / ((1 - 0.02 * |slopePct|) * 1.10)
  else if slopePct < -6 ∧ slopePct ≥ -8 then pickSpeedFromRange 5.45 6.67 prudence
  else if slopePct < -8 ∧ slopePct ≥ -12 then pickSpeedFromRange 4.62 6.0 prudence
  else if slopePct < -12 then pickSpeedFromRange 4.0 5.45 prudence
  else vFlatKmh

/-- Spec-side range-pick, written from the spec's words:
`range-pick(minKmh, maxKmh) = maxKmh − caution·(maxKmh − minKmh)`. -/
def specRangePick (minKmh maxKmh caution : ℚ) : ℚ :=
  maxKmh - caution * (maxKmh - minKmh)

/-- Modelled from the spec (section 4.4 slope-speed table), row by row in
table order, with the stated boundary inclusivity; used only to compare with
the source translation `calculateSpeedForSlope`. -/
def specSlopeSpeedTable (slope flatSpeedKmh : ℚ) (profile : Profile) (caution : ℚ) : ℚ :=
  if -1 ≤ slope ∧ slope ≤ 1 then flatSpeedKmh
  else if 1 < slope ∧ slope ≤ 12 then flatSpeedKmh / (1 + 0.04 * slope)
  else if 12 < slope ∧ slope ≤ 15 then
    match profile with
    | .trained => specRangePick 5.45 6.0 caution
    | .standard => specRangePick 4.62 5.45 caution
  else if 15 < slope ∧ slope ≤ 20 then
    match profile with
    | .trained => specRangePick 4.80 5.45 caution
    | .standard => specRangePick 4.0 4.62 caution
  else if 20 < slope then
    match profile with
    | .trained => specRangePick 4.0 4.62 caution
    | .standard => specRangePick 3.33 4.0 caution
  else if -3 ≤ slope ∧ slope < -1 then flatSpeedKmh / (1 - 0.02 * |slope|)
  else if -4 ≤ slope ∧ slope < -3 then flatSpeedKmh / ((1 - 0.02 * |slope|) * 1.05)
  else if -6 ≤ slope ∧ slope < -4 then flatSpeedKmh / ((1 - 0.02 * |slope|) * 1.10)
  else if -8 ≤ slope ∧ slope < -6 then specRangePick 5.45 6.67 caution
  else if -12 ≤ slope ∧ slope < -8 then specRangePick 4.62 6.0 caution
  else specRangePick 4.0 5.45 caution

/-- Source `calculateMovingTimeForVflat` (script-browser.js lines 337-352):
accumulates `(distKm / speed) * 3600` over the segments and returns `Infinity`
(modeled `none`) as soon as a segment's speed is non-positive (the only way a
speed can be non-finite in the exact-arithmetic model is excluded). -/
def calculateMovingTimeForVflat (segments : List Segment) (vFlatKmh : ℚ)
    (profile : Profile) (prudence : ℚ) : Option ℚ :=
  match segments with
  | [] => some 0
  | seg :: rest =>
    let speed := calculateSpeedForSlope seg.slopePct vFlatKmh profile prudence
    if speed ≤ 0 then none
    else
      match calculateMovingTimeForVflat rest vFlatKmh profile prudence with
      | none => none
      | some t => some (seg.lengthM / 1000 / speed * 3600 + t)

/-- JavaScript comparison `timeMid > targetMovingTimeSec` where `timeMid` may
be `Infinity` (`none`), which compares greater than every finite target. -/
def timeGT : Option ℚ → ℚ → Bool
  | none, _ => true
  | some t, target => decide (target < t)

/-- The bisection loop of `findVflatForTargetTime` (script-browser.js lines
358-367): one recursive call per loop iteration, final answer is the midpoint
of the last bracket. -/
def bisectGo (segments : List Segment) (target : ℚ) (profile : Profile) (prudence : ℚ) :
    ℕ → ℚ → ℚ → ℚ
  | 0, lo, hi => (lo + hi) / 2
  | n + 1, lo, hi =>
    let mid := (lo + hi) / 2
    if timeGT (calculateMovingTimeForVflat segments mid profile prudence) target
    then bisectGo segments target profile prudence n mid hi
    else bisectGo segments target profile prudence n lo mid

/-- Source `findVflatForTargetTime(segments, targetMovingTimeSec, profile,
prudence, vMin = 3, vMax = 25, iterations = 40)`; the defaults are supplied
explicitly at the call site in `calculatePacing`. -/
def findVflatForTargetTime (segments : List Segment) (targetMovingTimeSec : ℚ)
    (profile : Profile) (prudence : ℚ) (vMin vMax : ℚ) (iterations : ℕ) : ℚ :=
  bisectGo segments targetMovingTimeSec profile prudence iterations vMin vMax

/-- Modelled from the spec (section 4.5): a single bisection step on the
bracket — evaluate total moving time at the midpoint; if that time exceeds
the target raise the lower bound to the midpoint, otherwise lower the upper
bound to the midpoint. -/
def specBisectStep (segments : List Segment) (target : ℚ) (profile : Profile)
    (prudence : ℚ) (bracket : ℚ × ℚ) : ℚ × ℚ :=
  let mid := (bracket.1 + bracket.2) / 2
  if timeGT (calculateMovingTimeForVflat segments mid profile prudence) target
  then (mid, bracket.2)
  else (bracket.1, mid)

/-- Modelled from the spec (section 4.5): apply exactly `iterations` bisection
steps to `[vMin, vMax]` — no early exit, no convergence tolerance check — and
return the midpoint of the final bracket. -/
def specBisection (segments : List Segment) (target : ℚ) (profile : Profile)
    (prudence : ℚ) (vMin vMax : ℚ) (iterations : ℕ) : ℚ :=
  let final := (specBisectStep segments target profile prudence)^[iterations] (vMin, vMax)
  (final.1 + final.2) / 2

/-- Ordering on moving times where `none` stands for `Infinity`. -/
def timeLE : Option ℚ → Option ℚ → Prop
  | _, none => True
  | none, some _ => False
  | some a, some b => a ≤ b

instance : DecidablePred fun p : Option ℚ × Option ℚ => timeLE p.1 p.2 := by
  intro p
  rcases p with ⟨_ | a, _ | b⟩ <;> simp [timeLE] <;> infer_instance

/-- An elevation sample: `none` models a non-finite entry (`NaN`, missing),
`some v` a finite one; `isFinite` is the discrimination the source performs. -/
def EVal := Option ℚ

/-- Forward pass of `fillMissingElevation` (script-browser.js lines 278-283):
walk left to right carrying the last finite value seen (`last`, initially the
JavaScript `null`); a finite entry updates `last`, a non-finite entry is
overwritten by `last` when one exists. -/
def fillForwardPass (last : Option ℚ) : List (Option ℚ) → List (Option ℚ)
  | [] => []
  | x :: xs =>
    match x with
    | some v => some v :: fillForwardPass (some v) xs
    | none =>
      match last with
      | some l => some l :: fillForwardPass (some l) xs
      | none => none :: fillForwardPass none xs

/-- First finite value of a list of elevation samples. -/
def firstFinite : List (Option ℚ) → Option ℚ
  | [] => none
  | some v :: _ => some v
  | none :: xs => firstFinite xs

/-- Backward pass of `fillMissingElevation` (script-browser.js lines 285-289):
walking right to left, `next` holds the nearest originally-finite value to the
right, so a non-finite entry at the head receives the first finite value of
the tail (each index is visited once, and writes at larger indices are never
read again, so the in-place loop equals this recursion). -/
def fillBackwardPass : List (Option ℚ) → List (Option ℚ)
  | [] => []
  | x :: xs =>
    (match x with
     | some v => some v
     | none => firstFinite xs) :: fillBackwardPass xs

/-- Source `fillMissingElevation` (script-browser.js lines 276-292): forward
fill, then backward fill, then map any remaining non-finite entry to 0. -/
def fillMissingElevation (elevations : List (Option ℚ)) : List ℚ :=
  (fillBackwardPass (fillForwardPass none elevations)).map (fun v => v.getD 0)

/-- The nearest finite value at index ≤ i (the value forward-filling assigns). -/
def lastFiniteUpTo : List (Option ℚ) → ℕ → Option ℚ
  | [], _ => none
  | x :: _, 0 => x
  | x :: xs, i + 1 =>
    match lastFiniteUpTo xs i with
    | some v => some v
    | none => x

/-- Value of the forward pass at an index: the nearest preceding-or-self
finite value, else the carried-in value. -/
def fwdVal (last : Option ℚ) (l : List (Option ℚ)) (i : ℕ) : Option ℚ :=
  match lastFiniteUpTo l i with
  | some v => some v
  | none => last

/-- Modelled from the spec (section 4.2 and claim wording): the value the
filled sequence must hold at index `i` — the entry's own value when finite,
else the nearest preceding finite value, else the nearest following finite
value, else 0. -/
def specFillAt (l : List (Option ℚ)) (i : ℕ) : ℚ :=
  match lastFiniteUpTo l i with
  | some v => v
  | none => (firstFinite (l.drop (i + 1))).getD 0

/-- Source `smoothElevation` (script-browser.js lines 255-274) on a list of
finite elevations (the pipeline runs it after `fillMissingElevation`): window
size 1 is an identity copy, otherwise each index averages the entries with
index in `[i - half, i + half]` clipped to the array bounds. The window always
holds the index itself, so the `count = 0` null marker of the source cannot
occur on a nonempty input. -/
def smoothElevation (elevations : List ℚ) (windowSize : ℕ) : List ℚ :=
  if windowSize = 1 then elevations
  else
    (List.range elevations.length).map (fun i =>
      let lo := i - windowSize / 2
      let hi := min (i + windowSize / 2) (elevations.length - 1)
      let window := (List.range (hi + 1 - lo)).map (fun t => elevations.getD (lo + t) 0)
      window.sum / (window.length : ℚ))

/-- Cumulative distances after the first point, accumulating `hav` over
consecutive pairs (script-browser.js lines 394-398). -/
def cumFrom (hav : Point → Point → ℚ) (p : Point) (acc : ℚ) : List Point → List ℚ
  | [] => []
  | q :: rest => (acc + hav p q) :: cumFrom hav q (acc + hav p q) rest

/-- Cumulative distance sequence: starts at 0, each entry adds the pairwise
distance. The distance function is a parameter (haversine is transcendental;
nothing proved here depends on its values). -/
def cumulativeDistances (hav : Point → Point → ℚ) : List Point → List ℚ
  | [] => []
  | p :: rest => 0 :: cumFrom hav p 0 rest

/-- Resampling targets: the loop `for (d = 0; d < total; d += stepM)` pushes
the multiples `k·stepM < total` in order, then `total` itself is pushed. In
exact arithmetic the pushed multiples are exactly `k·stepM` for
`k < ⌈total/stepM⌉₊` (see `resampleTargets_multiple_mem`). -/
def resampleTargets (total stepM : ℚ) : List ℚ :=
  ((List.range ⌈total / stepM⌉₊).map (fun k : ℕ => (k : ℚ) * stepM)) ++ [total]

/-- The forward-advancing pointer: `while (j < cum.length && cum[j] < target) j++`. -/
def advanceJ (cum : List ℚ) (target : ℚ) (j : ℕ) : ℕ :=
  if h : j < cum.length ∧ cum.getD j 0 < target then advanceJ cum target (j + 1) else j
termination_by cum.length - j
decreasing_by exact Nat.sub_lt_sub_left h.1 (Nat.lt_succ_self j)

/-- Linear interpolation `a + (b - a) * t`. -/
def lerp (a b t : ℚ) : ℚ := a + (b - a) * t

/-- One iteration of the resampling loop body (script-browser.js lines
305-330): advance the pointer, clamp it to the last index, interpolate between
the bracketing original points, and emit the resampled point together with the
updated pointer. -/
def resampleStep (points : List Point) (cum : List ℚ) (i : ℕ) (target : ℚ) (j : ℕ) :
    RPoint × ℕ :=
  let j1 := advanceJ cum target j
  let j2 := if j1 ≥ cum.length then cum.length - 1 else j1
  let d0 := cum.getD (j2 - 1) 0
  let d1 := cum.getD j2 0
  let t := if d1 = d0 then 0 else (target - d0) / (d1 - d0)
  let p0 := points.getD (j2 - 1) default
  let p1 := points.getD j2 default
  (⟨i, target, lerp p0.lat p1.lat t, lerp p0.lon p1.lon t, lerp p0.ele p1.ele t⟩, j2)

/-- The resampling loop over the target list, threading the pointer `j` and
the output index `i`. -/
def resampleGo (points : List Point) (cum : List ℚ) : List ℚ → ℕ → ℕ → List RPoint
  | [], _, _ => []
  | target :: rest, i, j =>
    let pj := resampleStep points cum i target j
    pj.1 :: resampleGo points cum rest (i + 1) pj.2

/-- Source `resamplePoints(points, cumulativeDistances, stepM)`
(script-browser.js lines 294-333). -/
def resamplePoints (points : List Point) (cum : List ℚ) (stepM : ℚ) : List RPoint :=
  resampleGo points cum (resampleTargets (cum.getLastD 0) stepM) 0 1

/-- Segment construction from consecutive resampled points (script-browser.js
lines 407-423): slope percent is `(deltaElev / length) * 100`, defined as 0
when the length is not positive. -/
def mkSegment (a b : RPoint) : Segment :=
  let distM := b.distanceM - a.distanceM
  let deltaElev := b.ele - a.ele
  ⟨a.distanceM, b.distanceM, distM, deltaElev,
    if distM > 0 then deltaElev / distM * 100 else 0⟩

/-- All segments between consecutive resampled points. -/
def segmentsOfResampled : List RPoint → List Segment
  | a :: b :: rest => mkSegment a b :: segmentsOfResampled (b :: rest)
  | _ => []

/-- The distances of the resampled points, in order. -/
def resampledDistances (points : List Point) (cum : List ℚ) (stepM : ℚ) : List ℚ :=
  (resamplePoints points cum stepM).map (fun p => p.distanceM)

/-- Raw cumulative elevation gain over consecutive deltas (script-browser.js
lines 377-383): a positive delta adds to the gain, everything else adds
nothing. -/
def dPlusTotalOf : List ℚ → ℚ
  | a :: b :: rest => (if b - a > 0 then b - a else 0) + dPlusTotalOf (b :: rest)
  | _ => 0

/-- Raw cumulative elevation loss over consecutive deltas (script-browser.js
lines 377-383): a negative delta adds its absolute value to the loss,
everything else adds nothing. -/
def dMinusTotalOf : List ℚ → ℚ
  | a :: b :: rest => (if b - a < 0 then -(b - a) else 0) + dMinusTotalOf (b :: rest)
  | _ => 0

/-- Deltas between consecutive entries, used to state the claim-side
characterization of gain/loss totals. -/
def consecutiveDeltas : List ℚ → List ℚ
  | a :: b :: rest => (b - a) :: consecutiveDeltas (b :: rest)
  | _ => []

/-- A segment with its computed speed and rounded time (step 11 of
`calculatePacing`); the source also stores a formatted pace string, which is
presentation only. -/
structure DetailedSegment where
  fromM : ℚ
  toM : ℚ
  lengthM : ℚ
  deltaElevM : ℚ
  slopePct : ℚ
  speedKmh : ℚ
  timeSec : ℤ
deriving Inhabited, DecidableEq

/-- The unrounded per-segment moving time `(distKm / speed) * 3600`. -/
def segTimeRawSec (seg : Segment) (vFlatKmh : ℚ) (profile : Profile) (prudence : ℚ) : ℚ :=
  seg.lengthM / 1000 / calculateSpeedForSlope seg.slopePct vFlatKmh profile prudence * 3600

/-- Step 11 of `calculatePacing`: attach speed and the rounded time
(`timeSec: Math.round(timeSec)`) to a segment. -/
def detailSegment (vFlatKmh : ℚ) (profile : Profile) (prudence : ℚ) (seg : Segment) :
    DetailedSegment :=
  ⟨seg.fromM, seg.toM, seg.lengthM, seg.deltaElevM, seg.slopePct,
    calculateSpeedForSlope seg.slopePct vFlatKmh profile prudence,
    jsRound (segTimeRawSec seg vFlatKmh profile prudence)⟩

/-- Midpoint distance of a detailed segment, `(seg.fromM + seg.toM) / 2`. -/
def segMidM (s : DetailedSegment) : ℚ := (s.fromM + s.toM) / 2

/-- Kilometer bucket of a segment: `Math.floor(mid / 1000)` (step 12). -/
def kmIndexOfSeg (s : DetailedSegment) : ℤ := ⌊segMidM s / 1000⌋

/-- The segments grouped into the kilometer bucket `k`. Grouping by object key
in the source preserves the relative order of the members of one bucket, so a
bucket is exactly this filter. -/
def perKmBucket (segs : List DetailedSegment) (k : ℤ) : List DetailedSegment :=
  segs.filter (fun s => kmIndexOfSeg s == k)

/-- One per-kilometer output row (step 12 of `calculatePacing`); the formatted
time and pace strings of the source are presentation only and carry the same
numbers. -/
structure PerKmEntry where
  km : ℤ
  distanceKm : ℚ
  timeSec : ℤ
  avgSpeedKmh : ℚ
  avgSlopePct : ℚ
  dPlusM : ℤ
  dMinusM : ℤ
deriving Inhabited, DecidableEq

/-- The per-kilometer row for bucket `k`: sums of length and of the already
rounded per-segment times, raw `if deltaElev > 0` gain/else loss accumulation,
distance-weighted slope average, and `Math.round` on the aggregates exactly as
in the source. -/
def perKmEntryOf (segs : List DetailedSegment) (k : ℤ) : PerKmEntry :=
  let bucket := perKmBucket segs k
  let totalLengthM := (bucket.map (fun s => s.lengthM)).sum
  let totalTimeSec : ℚ := (bucket.map (fun s => (s.timeSec : ℚ))).sum
  let dPlus := (bucket.map (fun s => if s.deltaElevM > 0 then s.deltaElevM else 0)).sum
  let dMinus := (bucket.map (fun s => if s.deltaElevM > 0 then 0 else -s.deltaElevM)).sum
  let distKm := totalLengthM / 1000
  let avgSpeed := if distKm > 0 then distKm / (totalTimeSec / 3600) else 0
  let avgSlope :=
    if distKm > 0 then (bucket.map (fun s => s.slopePct * (s.lengthM / 1000))).sum / distKm
    else 0
  ⟨k + 1, distKm, jsRound totalTimeSec, avgSpeed, avgSlope, jsRound dPlus, jsRound dMinus⟩

/-- The per-kilometer table: one row per occurring kilometer index. -/
def perKmArrayOf (segs : List DetailedSegment) : List PerKmEntry :=
  ((segs.map kmIndexOfSeg).dedup).map (perKmEntryOf segs)

/-- One stage (step) row (step 14 of `calculatePacing`); formatted strings are
presentation only. -/
structure StepEntry where
  fromKm : ℚ
  toKm : ℚ
  distanceKm : ℚ
  dPlusM : ℤ
  dMinusM : ℤ
  movingSec : ℤ
  stopSec : ℚ
  totalSec : ℤ
  avgSpeedKmh : ℚ
deriving Inhabited, DecidableEq

/-- The detailed segments whose midpoint lies in `[fromM, toM)` (the stage
membership filter of step 14). -/
def stepSegsOf (segs : List DetailedSegment) (fromM toM : ℚ) : List DetailedSegment :=
  segs.filter (fun s => decide (fromM ≤ segMidM s) && decide (segMidM s < toM))

/-- The raw elevations of the original points whose cumulative distance (km)
lies in `[fromKm, toKm]`, in track order (step 14 collects the indices of
those points and walks them pairwise). -/
def stepRawEles (rawPoints : List Point) (cumRaw : List ℚ) (fromKm toKm : ℚ) : List ℚ :=
  ((rawPoints.zip cumRaw).filter
    (fun pc => decide (fromKm ≤ pc.2 / 1000) && decide (pc.2 / 1000 ≤ toKm))).map
    (fun pc => pc.1.ele)

/-- One stage row: raw-data gain/loss recomputed from the original points in
the window, moving time as the sum of the contained segments' rounded times,
stop time from the first checkpoint within 0.1 km of the end boundary. -/
def stepEntryOf (segs : List DetailedSegment) (rawPoints : List Point) (cumRaw : List ℚ)
    (checkpoints : List (ℚ × ℚ)) (fromKm toKm : ℚ) : StepEntry :=
  let fromM := fromKm * 1000
  let toM := toKm * 1000
  let stepEles := stepRawEles rawPoints cumRaw fromKm toKm
  let inStep := stepSegsOf segs fromM toM
  let stepLengthM := (inStep.map (fun s => s.lengthM)).sum
  let stepMovingSec : ℚ := (inStep.map (fun s => (s.timeSec : ℚ))).sum
  let stopSec :=
    match checkpoints.find? (fun cp => decide (|cp.1 - toKm| < 0.1)) with
    | some cp => cp.2 * 60
    | none => 0
  let stepDistKm := stepLengthM / 1000
  let stepAvgSpeed := if stepDistKm > 0 then stepDistKm / (stepMovingSec / 3600) else 0
  ⟨fromKm, toKm, stepDistKm, jsRound (dPlusTotalOf stepEles), jsRound (dMinusTotalOf stepEles),
    jsRound stepMovingSec, stopSec, jsRound (stepMovingSec + stopSec), stepAvgSpeed⟩

/-- Insert into a sorted list; models the numeric `sort((a, b) => a - b)` of
the boundary list (the relative order of equal keys is irrelevant: they are
deduplicated right after). -/
def insertSorted (x : ℚ) : List ℚ → List ℚ
  | [] => [x]
  | y :: ys => if x ≤ y then x :: y :: ys else y :: insertSorted x ys

/-- Ascending sort of the stage boundaries. -/
def sortBoundaries (l : List ℚ) : List ℚ := l.foldr insertSorted []

/-- Boundary deduplication (step 14): keep a boundary only when it differs
from the previously kept one by more than 0.001 km. -/
def dedupBoundaries (l : List ℚ) : List ℚ :=
  l.foldl
    (fun acc b =>
      match acc.getLast? with
      | none => [b]
      | some prev => if |prev - b| > 0.001 then acc ++ [b] else acc)
    []

/-- Stage boundaries: 0, the checkpoint positions, and the total distance,
sorted ascending and deduplicated with the 0.001 km tolerance. -/
def uniqueBoundariesOf (checkpoints : List (ℚ × ℚ)) (totalDistanceKm : ℚ) : List ℚ :=
  dedupBoundaries (sortBoundaries (0 :: checkpoints.map (fun cp => cp.1) ++ [totalDistanceKm]))

/-- All stage rows, one per consecutive boundary pair. -/
def stepsOf (segs : List DetailedSegment) (rawPoints : List Point) (cumRaw : List ℚ)
    (checkpoints : List (ℚ × ℚ)) (bounds : List ℚ) : List StepEntry :=
  (bounds.zip bounds.tail).map (fun fb => stepEntryOf segs rawPoints cumRaw checkpoints fb.1 fb.2)

/-- Failures of `calculatePacing`: too few parsed points (source
`parseGpxFile` throw), or the stop-time validation (source step 9 throw). -/
inductive PacingError where
  | parseError
  | stopTimeExceedsTarget
deriving DecidableEq

/-- The numeric totals of the result (step 15/16); the source additionally
stores formatted strings of these same numbers. -/
structure PacingTotals where
  totalDistanceKm : ℚ
  dPlusM : ℤ
  dMinusM : ℤ
  dPlusMAllPoints : ℤ
  dMinusMAllPoints : ℤ
  targetTotalSec : ℚ
  stopTimeSec : ℚ
  movingTargetSec : ℚ
  computedMovingSec : ℤ
deriving DecidableEq

/-- The pacing result aggregate returned by `calculatePacing`. -/
structure PacingResult where
  totals : PacingTotals
  vFlatKmh : ℚ
  steps : List StepEntry
  perKm : List PerKmEntry
  per250m : List DetailedSegment
deriving DecidableEq

/-- Total checkpoint stop seconds: `sum + (cp[1] || 0) * 60` (step 8). -/
def checkpointStopSecOf (checkpoints : List (ℚ × ℚ)) : ℚ :=
  (checkpoints.map (fun cp => cp.2 * 60)).sum

/-- Rest stop seconds: `(restPeriods[0] || 0) * (restPeriods[1] || 0) * 60`. -/
def restStopSecOf (restPeriods : ℚ × ℚ) : ℚ := restPeriods.1 * restPeriods.2 * 60

/-- Steps 3-4 of `calculatePacing`: fill missing elevations, smooth them, and
put the smoothed elevations back on the points (lat/lon unchanged). Parsed
elevations are finite, hence the `some` injection. -/
def conditionedPoints (points : List Point) (smoothingWindow : ℕ) : List Point :=
  let eleFilled := fillMissingElevation ((points.map (fun p => p.ele)).map some)
  let eleSmoothed := smoothElevation eleFilled smoothingWindow
  (points.zip eleSmoothed).map (fun pe => { pe.1 with ele := pe.2 })

/-- Steps 5-7 of `calculatePacing`: cumulative distances of the conditioned
points, resampling, and segment construction. -/
def pipelineSegments (hav : Point → Point → ℚ) (points : List Point) (segmentLengthM : ℚ)
    (smoothingWindow : ℕ) : List Segment :=
  let cpts := conditionedPoints points smoothingWindow
  segmentsOfResampled (resamplePoints cpts (cumulativeDistances hav cpts) segmentLengthM)

/-- Steps 2 and 10-16 of `calculatePacing`, run after the validation checks
pass: totals on the raw points, calibration, detailed segments, per-kilometer
rows, stage rows, and the final aggregate. -/
def buildPacingResult (hav : Point → Point → ℚ) (rawPoints : List Point)
    (targetTotalSec : ℚ) (profile : Profile) (prudence : ℚ)
    (checkpoints : List (ℚ × ℚ)) (totalStopSec targetMovingSec : ℚ)
    (segmentLengthM : ℚ) (smoothingWindow : ℕ) : PacingResult :=
  let eleRaw := rawPoints.map (fun p => p.ele)
  let cpts := conditionedPoints rawPoints smoothingWindow
  let totalDistanceKm := (cumulativeDistances hav cpts).getLastD 0 / 1000
  let segments := pipelineSegments hav rawPoints segmentLengthM smoothingWindow
  let vFlatKmh := findVflatForTargetTime segments targetMovingSec profile prudence 3 25 40
  let ds := segments.map (detailSegment vFlatKmh profile prudence)
  let cumRaw := cumulativeDistances hav rawPoints
  let bounds := uniqueBoundariesOf checkpoints totalDistanceKm
  let steps := stepsOf ds rawPoints cumRaw checkpoints bounds
  { totals :=
      { totalDistanceKm := totalDistanceKm
        dPlusM := jsRound ((steps.map (fun st => (st.dPlusM : ℚ))).sum)
        dMinusM := jsRound ((steps.map (fun st => (st.dMinusM : ℚ))).sum)
        dPlusMAllPoints := jsRound (dPlusTotalOf eleRaw)
        dMinusMAllPoints := jsRound (dMinusTotalOf eleRaw)
        targetTotalSec := targetTotalSec
        stopTimeSec := totalStopSec
        movingTargetSec := targetMovingSec
        computedMovingSec := (ds.map (fun s => s.timeSec)).sum }
    vFlatKmh := vFlatKmh
    steps := steps
    perKm := perKmArrayOf ds
    per250m := ds }

/-- Source `calculatePacing` (script-browser.js lines 372-645), with the GPX
text replaced by its parsed points and the target time string by its parsed
seconds: the parser's minimum-point check, the stop-time computation, the
stop-time validation, then the full result construction. -/
def calculatePacing (hav : Point → Point → ℚ) (rawPoints : List Point)
    (targetTotalSec : ℚ) (profile : Profile) (prudence : ℚ)
    (checkpoints : List (ℚ × ℚ)) (restPeriods : ℚ × ℚ)
    (segmentLengthM : ℚ) (smoothingWindow : ℕ) : Except PacingError PacingResult :=
  if rawPoints.length < 2 then .error .parseError
  else
    let totalStopSec := checkpointStopSecOf checkpoints + restStopSecOf restPeriods
    let targetMovingSec := targetTotalSec - totalStopSec
    if targetMovingSec ≤ 0 then .error .stopTimeExceedsTarget
    else
      .ok (buildPacingResult hav rawPoints targetTotalSec profile prudence checkpoints
        totalStopSec targetMovingSec segmentLengthM smoothingWindow)

/-! ### Theorems -/
set_option maxHeartbeats 1000000 in
/-- C1 -/
theorem calculateSpeedForSlope_eq_specTable (s v c : ℚ) (p : Profile)
    (hc0 : 0 ≤ c) (hc1 : c ≤ 1) :
    calculateSpeedForSlope s v p c = specSlopeSpeedTable s v p c := by
  unfold calculateSpeedForSlope specSlopeSpeedTable
  rcases le_or_lt (-1) s with hA | hA
  · rcases le_or_lt s 1 with hB | hB
    · rw [if_pos ⟨by linarith, by linarith⟩,
            if_pos ⟨by linarith, by linarith⟩]
      try rfl
    · rcases le_or_lt s 12 with hC | hC
      · rw [if_neg (by rintro ⟨x, y⟩; linarith),
              if_pos ⟨by linarith, by linarith⟩,
              if_neg (by rintro ⟨x, y⟩; linarith),
              if_pos ⟨by linarith, by linarith⟩]
        try rfl
      · rcases le_or_lt s 15 with hD | hD
        · rw [if_neg (by rintro ⟨x, y⟩; linarith),
                if_neg (by rintro ⟨x, y⟩; linarith),
                if_pos ⟨by linarith, by linarith⟩,
                if_neg (by rintro ⟨x, y⟩; linarith),
                if_neg (by rintro ⟨x, y⟩; linarith),
                if_pos ⟨by linarith, by linarith⟩]
          try rfl
          try (cases p <;> rfl)
        · rcases le_or_lt s 20 with hE | hE
          · rw [if_neg (by rintro ⟨x, y⟩; linarith),
                  if_neg (by rintro ⟨x, y⟩; linarith),
                  if_neg (by rintro ⟨x, y⟩; linarith),
                  if_pos ⟨by linarith, by linarith⟩,
                  if_neg (by rintro ⟨x, y⟩; linarith),
                  if_neg (by rintro ⟨x, y⟩; linarith),
                  if_neg (by rintro ⟨x, y⟩; linarith),
                  if_pos ⟨by linarith, by linarith⟩]
            try rfl
            try (cases p <;> rfl)
          · rw [if_neg (by rintro ⟨x, y⟩; linarith),
                  if_neg (by rintro ⟨x, y⟩; linarith),
                  if_neg (by rintro ⟨x, y⟩; linarith),
                  if_neg (by rintro ⟨x, y⟩; linarith),
                  if_pos (by linarith),
                  if_neg (by rintro ⟨x, y⟩; linarith),
                  if_neg (by rintro ⟨x, y⟩; linarith),
                  if_neg (by rintro ⟨x, y⟩; linarith),
                  if_neg (by rintro ⟨x, y⟩; linarith),
                  if_pos (by linarith)]
            try rfl
            try (cases p <;> rfl)
  · rcases le_or_lt (-3) s with hB | hB
    · rw [if_neg (by rintro ⟨x, y⟩; linarith),
            if_neg (by rintro ⟨x, y⟩; linarith),
            if_neg (by rintro ⟨x, y⟩; linarith),
            if_neg (by rintro ⟨x, y⟩; linarith),
            if_neg (by intro x; linarith),
            if_pos ⟨by linarith, by linarith⟩,
            if_neg (by rintro ⟨x, y⟩; linarith),
            if_neg (by rintro ⟨x, y⟩; linarith),
            if_neg (by rintro ⟨x, y⟩; linarith),
            if_neg (by rintro ⟨x, y⟩; linarith),
            if_neg (by intro x; linarith),
            if_pos ⟨by linarith, by linarith⟩]
      try rfl
    · rcases le_or_lt (-4) s with hC | hC
      · rw [if_neg (by rintro ⟨x, y⟩; linarith),
              if_neg (by rintro ⟨x, y⟩; linarith),
              if_neg (by rintro ⟨x, y⟩; linarith),
              if_neg (by rintro ⟨x, y⟩; linarith),
              if_neg (by intro x; linarith),
              if_neg (by rintro ⟨x, y⟩; linarith),
              if_pos ⟨by linarith, by linarith⟩,
              if_neg (by rintro ⟨x, y⟩; linarith),
              if_neg (by rintro ⟨x, y⟩; linarith),
              if_neg (by rintro ⟨x, y⟩; linarith),
              if_neg (by rintro ⟨x, y⟩; linarith),
              if_neg (by intro x; linarith),
              if_neg (by rintro ⟨x, y⟩; linarith),
              if_pos ⟨by linarith, by linarith⟩]
        try rfl
      · rcases le_or_lt (-6) s with hD | hD
        · rw [if_neg (by rintro ⟨x, y⟩; linarith),
                if_neg (by rintro ⟨x, y⟩; linarith),
                if_neg (by rintro ⟨x, y⟩; linarith),
                if_neg (by rintro ⟨x, y⟩; linarith),
                if_neg (by intro x; linarith),
                if_neg (by rintro ⟨x, y⟩; linarith),
                if_neg (by rintro ⟨x, y⟩; linarith),
                if_pos ⟨by linarith, by linarith⟩,
                if_neg (by rintro ⟨x, y⟩; linarith),
                if_neg (by rintro ⟨x, y⟩; linarith),
                if_neg (by rintro ⟨x, y⟩; linarith),
                if_neg (by rintro ⟨x, y⟩; linarith),
                if_neg (by intro x; linarith),
                if_neg (by rintro ⟨x, y⟩; linarith),
                if_neg (by rintro ⟨x, y⟩; linarith),
                if_pos ⟨by linarith, by linarith⟩]
          try rfl
        · rcases le_or_lt (-8) s with hE | hE
          · rw [if_neg (by rintro ⟨x, y⟩; linarith),
                  if_neg (by rintro ⟨x, y⟩; linarith),
                  if_neg (by rintro ⟨x, y⟩; linarith),
                  if_neg (by rintro ⟨x, y⟩; linarith),
                  if_neg (by intro x; linarith),
                  if_neg (by rintro ⟨x, y⟩; linarith),
                  if_neg (by rintro ⟨x, y⟩; linarith),
                  if_neg (by rintro ⟨x, y⟩; linarith),
                  if_pos ⟨by linarith, by linarith⟩,
                  if_neg (by rintro ⟨x, y⟩; linarith),
                  if_neg (by rintro ⟨x, y⟩; linarith),
                  if_neg (by rintro ⟨x, y⟩; linarith),
                  if_neg (by rintro ⟨x, y⟩; linarith),
                  if_neg (by intro x; linarith),
                  if_neg (by rintro ⟨x, y⟩; linarith),
                  if_neg (by rintro ⟨x, y⟩; linarith),
                  if_neg (by rintro ⟨x, y⟩; linarith),
                  if_pos ⟨by linarith, by linarith⟩]
            try rfl
          · rcases le_or_lt (-12) s with hF | hF
            · rw [if_neg (by rintro ⟨x, y⟩; linarith),
                    if_neg (by rintro ⟨x, y⟩; linarith),
                    if_neg (by rintro ⟨x, y⟩; linarith),
                    if_neg (by rintro ⟨x, y⟩; linarith),
                    if_neg (by intro x; linarith),
                    if_neg (by rintro ⟨x, y⟩; linarith),
                    if_neg (by rintro ⟨x, y⟩; linarith),
                    if_neg (by rintro ⟨x, y⟩; linarith),
                    if_neg (by rintro ⟨x, y⟩; linarith),
                    if_pos ⟨by linarith, by linarith⟩,
                    if_neg (by rintro ⟨x, y⟩; linarith),
                    if_neg (by rintro ⟨x, y⟩; linarith),
                    if_neg (by rintro ⟨x, y⟩; linarith),
                    if_neg (by rintro ⟨x, y⟩; linarith),
                    if_neg (by intro x; linarith),
                    if_neg (by rintro ⟨x, y⟩; linarith),
                    if_neg (by rintro ⟨x, y⟩; linarith),
                    if_neg (by rintro ⟨x, y⟩; linarith),
                    if_neg (by rintro ⟨x, y⟩; linarith),
                    if_pos ⟨by linarith, by linarith⟩]
              try rfl
            · rw [if_neg (by rintro ⟨x, y⟩; linarith),
                    if_neg (by rintro ⟨x, y⟩; linarith),
                    if_neg (by rintro ⟨x, y⟩; linarith),
                    if_neg (by rintro ⟨x, y⟩; linarith),
                    if_neg (by intro x; linarith),
                    if_neg (by rintro ⟨x, y⟩; linarith),
                    if_neg (by rintro ⟨x, y⟩; linarith),
                    if_neg (by rintro ⟨x, y⟩; linarith),
                    if_neg (by rintro ⟨x, y⟩; linarith),
                    if_neg (by rintro ⟨x, y⟩; linarith),
                    if_pos (by linarith),
                    if_neg (by rintro ⟨x, y⟩; linarith),
                    if_neg (by rintro ⟨x, y⟩; linarith),
                    if_neg (by rintro ⟨x, y⟩; linarith),
                    if_neg (by rintro ⟨x, y⟩; linarith),
                    if_neg (by intro x; linarith),
                    if_neg (by rintro ⟨x, y⟩; linarith),
                    if_neg (by rintro ⟨x, y⟩; linarith),
                    if_neg (by rintro ⟨x, y⟩; linarith),
                    if_neg (by rintro ⟨x, y⟩; linarith),
                    if_neg (by rintro ⟨x, y⟩; linarith)]
              try rfl

/-- C1 witness: the theorem applied at slope 13, flat speed 10, trained
profile, caution 1/2. -/
theorem calculateSpeedForSlope_eq_specTable_witness :
    calculateSpeedForSlope 13 10 .trained (1/2) = specSlopeSpeedTable 13 10 .trained (1/2) :=
  calculateSpeedForSlope_eq_specTable 13 10 (1/2) .trained (by norm_num) (by norm_num)

/-- The bisection loop equals iterating the spec's bracket step and taking the
final midpoint. -/
theorem bisectGo_eq_iterate (segments : List Segment) (target : ℚ) (profile : Profile)
    (prudence : ℚ) (n : ℕ) (lo hi : ℚ) :
    bisectGo segments target profile prudence n lo hi =
      (((specBisectStep segments target profile prudence)^[n] (lo, hi)).1 +
        ((specBisectStep segments target profile prudence)^[n] (lo, hi)).2) / 2 := by
  induction n generalizing lo hi with
  | zero => simp [bisectGo]
  | succ k ih =>
    rw [Function.iterate_succ_apply]
    cases h : timeGT (calculateMovingTimeForVflat segments ((lo + hi) / 2) profile prudence)
        target with
    | true => simp only [bisectGo, specBisectStep, h, if_true, ih]
    | false => simp only [bisectGo, specBisectStep, h, if_false, ih, Bool.false_eq_true]

/-- C2: `findVflatForTargetTime` performs exactly `iterations` bisection steps
with no early exit and no tolerance check — at each step it evaluates the
total moving time at the midpoint of the bracket, raises the lower bound to
the midpoint when that time exceeds the target and otherwise lowers the upper
bound, and finally returns the midpoint of the bracket after the last step. -/
theorem findVflat_eq_specBisection (segments : List Segment) (target : ℚ)
    (profile : Profile) (prudence : ℚ) (vMin vMax : ℚ) (iterations : ℕ) :
    findVflatForTargetTime segments target profile prudence vMin vMax iterations =
      specBisection segments target profile prudence vMin vMax iterations := by
  unfold findVflatForTargetTime specBisection
  exact bisectGo_eq_iterate segments target profile prudence iterations vMin vMax

/-- The bisection loop stays inside any interval containing the initial
bracket. -/
theorem bisectGo_in_bounds (segments : List Segment) (target : ℚ) (profile : Profile)
    (prudence : ℚ) (n : ℕ) (lo hi vMin vMax : ℚ)
    (h1 : vMin ≤ lo) (h2 : lo ≤ hi) (h3 : hi ≤ vMax) :
    vMin ≤ bisectGo segments target profile prudence n lo hi ∧
      bisectGo segments target profile prudence n lo hi ≤ vMax := by
  induction n generalizing lo hi with
  | zero =>
    unfold bisectGo
    constructor <;> linarith
  | succ k ih =>
    unfold bisectGo
    cases h : timeGT (calculateMovingTimeForVflat segments ((lo + hi) / 2) profile prudence)
        target with
    | true =>
      simp only [h, if_true]
      exact ih ((lo + hi) / 2) hi (by linarith) (by linarith) h3
    | false =>
      simp only [h, Bool.false_eq_true, if_false]
      exact ih lo ((lo + hi) / 2) h1 (by linarith) (by linarith)

/-- C10: the bisection maintains `vMin ≤ lo ≤ hi ≤ vMax` at every step, so
`findVflatForTargetTime` always returns a value in `[vMin, vMax]`; it is a
total function (no error is ever raised), even for targets outside the
achievable time window. -/
theorem findVflat_in_bounds (segments : List Segment) (target : ℚ) (profile : Profile)
    (prudence : ℚ) (vMin vMax : ℚ) (iterations : ℕ) (h : vMin < vMax) :
    vMin ≤ findVflatForTargetTime segments target profile prudence vMin vMax iterations ∧
      findVflatForTargetTime segments target profile prudence vMin vMax iterations ≤ vMax := by
  unfold findVflatForTargetTime
  exact bisectGo_in_bounds segments target profile prudence iterations vMin vMax vMin vMax
    le_rfl (le_of_lt h) le_rfl

/-- C10 witness: the default bracket `[3, 25]` with 40 iterations on the empty
segment list. -/
theorem findVflat_in_bounds_witness :
    3 ≤ findVflatForTargetTime [] 3600 .trained (1/2) 3 25 40 ∧
      findVflatForTargetTime [] 3600 .trained (1/2) 3 25 40 ≤ 25 :=
  findVflat_in_bounds [] 3600 .trained (1/2) 3 25 40 (by norm_num)
/-- Branch evaluation of the slope-speed function. -/
theorem speedEval_flat (s v c : ℚ) (p : Profile) (hA : -1 ≤ s) (hB : s ≤ 1) :
    calculateSpeedForSlope s v p c =
      (v) := by
  unfold calculateSpeedForSlope
  rw [if_pos ⟨by linarith, by linarith⟩]

/-- Branch evaluation of the slope-speed function. -/
theorem speedEval_up1 (s v c : ℚ) (p : Profile) (hA : 1 < s) (hB : s ≤ 12) :
    calculateSpeedForSlope s v p c =
      (v / (1 + 0.04 * s)) := by
  unfold calculateSpeedForSlope
  rw [if_neg (by rintro ⟨x, y⟩; linarith),
    if_pos ⟨by linarith, by linarith⟩]

/-- Branch evaluation of the slope-speed function. -/
theorem speedEval_up2 (s v c : ℚ) (p : Profile) (hA : 12 < s) (hB : s ≤ 15) :
    calculateSpeedForSlope s v p c =
      (match p with
      | .trained => pickSpeedFromRange 5.45 6.0 c
      | .standard => pickSpeedFromRange 4.62 5.45 c) := by
  unfold calculateSpeedForSlope
  rw [if_neg (by rintro ⟨x, y⟩; linarith),
    if_neg (by rintro ⟨x, y⟩; linarith),
    if_pos ⟨by linarith, by linarith⟩]

/-- Branch evaluation of the slope-speed function. -/
theorem speedEval_up3 (s v c : ℚ) (p : Profile) (hA : 15 < s) (hB : s ≤ 20) :
    calculateSpeedForSlope s v p c =
      (match p with
      | .trained => pickSpeedFromRange 4.80 5.45 c
      | .standard => pickSpeedFromRange 4.0 4.62 c) := by
  unfold calculateSpeedForSlope
  rw [if_neg (by rintro ⟨x, y⟩; linarith),
    if_neg (by rintro ⟨x, y⟩; linarith),
    if_neg (by rintro ⟨x, y⟩; linarith),
    if_pos ⟨by linarith, by linarith⟩]

/-- Branch evaluation of the slope-speed function. -/
theorem speedEval_up4 (s v c : ℚ) (p : Profile) (hA : 20 < s) :
    calculateSpeedForSlope s v p c =
      (match p with
      | .trained => pickSpeedFromRange 4.0 4.62 c
      | .standard => pickSpeedFromRange 3.33 4.0 c) := by
  unfold calculateSpeedForSlope
  rw [if_neg (by rintro ⟨x, y⟩; linarith),
    if_neg (by rintro ⟨x, y⟩; linarith),
    if_neg (by rintro ⟨x, y⟩; linarith),
    if_neg (by rintro ⟨x, y⟩; linarith),
    if_pos (by linarith)]

/-- Branch evaluation of the slope-speed function. -/
theorem speedEval_down1 (s v c : ℚ) (p : Profile) (hA : -3 ≤ s) (hB : s < -1) :
    calculateSpeedForSlope s v p c =
      (v / (1 - 0.02 * |s|)) := by
  unfold calculateSpeedForSlope
  rw [if_neg (by rintro ⟨x, y⟩; linarith),
    if_neg (by rintro ⟨x, y⟩; linarith),
    if_neg (by rintro ⟨x, y⟩; linarith),
    if_neg (by rintro ⟨x, y⟩; linarith),
    if_neg (by intro x; linarith),
    if_pos ⟨by linarith, by linarith⟩]

/-- Branch evaluation of the slope-speed function. -/
theorem speedEval_down2 (s v c : ℚ) (p : Profile) (hA : -4 ≤ s) (hB : s < -3) :
    calculateSpeedForSlope s v p c =
      (v / ((1 - 0.02 * |s|) * 1.05)) := by
  unfold calculateSpeedForSlope
  rw [if_neg (by rintro ⟨x, y⟩; linarith),
    if_neg (by rintro ⟨x, y⟩; linarith),
    if_neg (by rintro ⟨x, y⟩; linarith),
    if_neg (by rintro ⟨x, y⟩; linarith),
    if_neg (by intro x; linarith),
    if_neg (by rintro ⟨x, y⟩; linarith),
    if_pos ⟨by linarith, by linarith⟩]

/-- Branch evaluation of the slope-speed function. -/
theorem speedEval_down3 (s v c : ℚ) (p : Profile) (hA : -6 ≤ s) (hB : s < -4) :
    calculateSpeedForSlope s v p c =
      (v / ((1 - 0.02 * |s|) * 1.10)) := by
  unfold calculateSpeedForSlope
  rw [if_neg (by rintro ⟨x, y⟩; linarith),
    if_neg (by rintro ⟨x, y⟩; linarith),
    if_neg (by rintro ⟨x, y⟩; linarith),
    if_neg (by rintro ⟨x, y⟩; linarith),
    if_neg (by intro x; linarith),
    if_neg (by rintro ⟨x, y⟩; linarith),
    if_neg (by rintro ⟨x, y⟩; linarith),
    if_pos ⟨by linarith, by linarith⟩]

/-- Branch evaluation of the slope-speed function. -/
theorem speedEval_down4 (s v c : ℚ) (p : Profile) (hA : -8 ≤ s) (hB : s < -6) :
    calculateSpeedForSlope s v p c =
      (pickSpeedFromRange 5.45 6.67 c) := by
  unfold calculateSpeedForSlope
  rw [if_neg (by rintro ⟨x, y⟩; linarith),
    if_neg (by rintro ⟨x, y⟩; linarith),
    if_neg (by rintro ⟨x, y⟩; linarith),
    if_neg (by rintro ⟨x, y⟩; linarith),
    if_neg (by intro x; linarith),
    if_neg (by rintro ⟨x, y⟩; linarith),
    if_neg (by rintro ⟨x, y⟩; linarith),
    if_neg (by rintro ⟨x, y⟩; linarith),
    if_pos ⟨by linarith, by linarith⟩]

/-- Branch evaluation of the slope-speed function. -/
theorem speedEval_down5 (s v c : ℚ) (p : Profile) (hA : -12 ≤ s) (hB : s < -8) :
    calculateSpeedForSlope s v p c =
      (pickSpeedFromRange 4.62 6.0 c) := by
  unfold calculateSpeedForSlope
  rw [if_neg (by rintro ⟨x, y⟩; linarith),
    if_neg (by rintro ⟨x, y⟩; linarith),
    if_neg (by rintro ⟨x, y⟩; linarith),
    if_neg (by rintro ⟨x, y⟩; linarith),
    if_neg (by intro x; linarith),
    if_neg (by rintro ⟨x, y⟩; linarith),
    if_neg (by rintro ⟨x, y⟩; linarith),
    if_neg (by rintro ⟨x, y⟩; linarith),
    if_neg (by rintro ⟨x, y⟩; linarith),
    if_pos ⟨by linarith, by linarith⟩]

/-- Branch evaluation of the slope-speed function. -/
theorem speedEval_down6 (s v c : ℚ) (p : Profile) (hA : s < -12) :
    calculateSpeedForSlope s v p c =
      (pickSpeedFromRange 4.0 5.45 c) := by
  unfold calculateSpeedForSlope
  rw [if_neg (by rintro ⟨x, y⟩; linarith),
    if_neg (by rintro ⟨x, y⟩; linarith),
    if_neg (by rintro ⟨x, y⟩; linarith),
    if_neg (by rintro ⟨x, y⟩; linarith),
    if_neg (by intro x; linarith),
    if_neg (by rintro ⟨x, y⟩; linarith),
    if_neg (by rintro ⟨x, y⟩; linarith),
    if_neg (by rintro ⟨x, y⟩; linarith),
    if_neg (by rintro ⟨x, y⟩; linarith),
    if_neg (by rintro ⟨x, y⟩; linarith),
    if_pos (by linarith)]

/-- For a positive flat speed and caution in [0,1], every branch of the
slope-speed function yields a positive speed, and the speed is monotone
non-decreasing in the flat speed. -/
theorem speed_pos_mono (s v1 v2 c : ℚ) (p : Profile) (h0 : 0 < v1) (h12 : v1 ≤ v2)
    (hc0 : 0 ≤ c) (hc1 : c ≤ 1) :
    0 < calculateSpeedForSlope s v1 p c ∧
      calculateSpeedForSlope s v1 p c ≤ calculateSpeedForSlope s v2 p c := by
  rcases le_or_lt (-1) s with hA | hA
  · rcases le_or_lt s 1 with hB | hB
    · rw [speedEval_flat s v1 c p hA hB, speedEval_flat s v2 c p hA hB]
      exact ⟨h0, h12⟩
    · rcases le_or_lt s 12 with hC | hC
      · rw [speedEval_up1 s v1 c p hB hC, speedEval_up1 s v2 c p hB hC]
        have hd : 0 < 1 + 0.04 * s := by linarith
        exact ⟨div_pos h0 hd, by gcongr⟩
      · rcases le_or_lt s 15 with hD | hD
        · rw [speedEval_up2 s v1 c p hC hD, speedEval_up2 s v2 c p hC hD]
          cases p <;> exact ⟨by unfold pickSpeedFromRange; linarith, le_rfl⟩
        · rcases le_or_lt s 20 with hE | hE
          · rw [speedEval_up3 s v1 c p hD hE, speedEval_up3 s v2 c p hD hE]
            cases p <;> exact ⟨by unfold pickSpeedFromRange; linarith, le_rfl⟩
          · rw [speedEval_up4 s v1 c p hE, speedEval_up4 s v2 c p hE]
            cases p <;> exact ⟨by unfold pickSpeedFromRange; linarith, le_rfl⟩
  · have habs : |s| = -s := abs_of_neg (by linarith)
    rcases le_or_lt (-3) s with hB | hB
    · rw [speedEval_down1 s v1 c p hB hA, speedEval_down1 s v2 c p hB hA, habs]
      have hd : 0 < 1 - 0.02 * -s := by linarith
      exact ⟨div_pos h0 hd, by gcongr⟩
    · rcases le_or_lt (-4) s with hC | hC
      · rw [speedEval_down2 s v1 c p hC hB, speedEval_down2 s v2 c p hC hB, habs]
        have hd : 0 < (1 - 0.02 * -s) * 1.05 := by nlinarith
        exact ⟨div_pos h0 hd, by gcongr⟩
      · rcases le_or_lt (-6) s with hD | hD
        · rw [speedEval_down3 s v1 c p hD hC, speedEval_down3 s v2 c p hD hC, habs]
          have hd : 0 < (1 - 0.02 * -s) * 1.10 := by nlinarith
          exact ⟨div_pos h0 hd, by gcongr⟩
        · rcases le_or_lt (-8) s with hE | hE
          · rw [speedEval_down4 s v1 c p hE hD, speedEval_down4 s v2 c p hE hD]
            exact ⟨by unfold pickSpeedFromRange; linarith, le_rfl⟩
          · rcases le_or_lt (-12) s with hF | hF
            · rw [speedEval_down5 s v1 c p hF hE, speedEval_down5 s v2 c p hF hE]
              exact ⟨by unfold pickSpeedFromRange; linarith, le_rfl⟩
            · rw [speedEval_down6 s v1 c p hF, speedEval_down6 s v2 c p hF]
              exact ⟨by unfold pickSpeedFromRange; linarith, le_rfl⟩

/-- Positivity of the slope-speed function for positive flat speed and caution
in [0,1]. -/
theorem speed_pos (s v c : ℚ) (p : Profile) (h0 : 0 < v) (hc0 : 0 ≤ c) (hc1 : c ≤ 1) :
    0 < calculateSpeedForSlope s v p c :=
  (speed_pos_mono s v v c p h0 le_rfl hc0 hc1).1

/-- When every segment's speed is positive, the moving time is the finite sum
of the per-segment `(lengthKm / speed) * 3600` terms. -/
theorem movingTime_eq_sum (segs : List Segment) (v c : ℚ) (p : Profile)
    (hpos : ∀ s ∈ segs, 0 < calculateSpeedForSlope s.slopePct v p c) :
    calculateMovingTimeForVflat segs v p c =
      some ((segs.map
        (fun s => s.lengthM / 1000 / calculateSpeedForSlope s.slopePct v p c * 3600)).sum) := by
  induction segs with
  | nil => simp [calculateMovingTimeForVflat]
  | cons a rest ih =>
    have ha : 0 < calculateSpeedForSlope a.slopePct v p c := hpos a (List.mem_cons_self a rest)
    have hrest : ∀ s ∈ rest, 0 < calculateSpeedForSlope s.slopePct v p c :=
      fun s hs => hpos s (List.mem_cons_of_mem a hs)
    simp only [calculateMovingTimeForVflat, List.map_cons, List.sum_cons]
    rw [if_neg (not_le.mpr ha), ih hrest]

/-- The moving time is `Infinity` exactly when some segment's speed is
non-positive. -/
theorem movingTime_none_iff (segs : List Segment) (v c : ℚ) (p : Profile) :
    calculateMovingTimeForVflat segs v p c = none ↔
      ∃ s ∈ segs, calculateSpeedForSlope s.slopePct v p c ≤ 0 := by
  induction segs with
  | nil => simp [calculateMovingTimeForVflat]
  | cons a rest ih =>
    simp only [calculateMovingTimeForVflat]
    by_cases h : calculateSpeedForSlope a.slopePct v p c ≤ 0
    · simp [h]
    · rw [if_neg h]
      cases hm : calculateMovingTimeForVflat rest v p c with
      | none =>
        rw [hm] at ih
        simp only [List.mem_cons]
        constructor
        · intro _
          obtain ⟨s, hs, hle⟩ := ih.mp rfl
          exact ⟨s, Or.inr hs, hle⟩
        · intro _; trivial
      | some t =>
        rw [hm] at ih
        simp only [List.mem_cons]
        constructor
        · intro hcontr; exact absurd hcontr (by simp)
        · rintro ⟨s, hs | hs, hle⟩
          · subst hs; exact absurd hle h
          · exact absurd (ih.mpr ⟨s, hs, hle⟩) (by simp)

/-- C3: for a fixed segment list (nonnegative segment lengths, as the
resampler produces), fixed profile and caution in [0,1], the total modeled
moving time is monotonically non-increasing in the flat speed over the
calibration bounds: `v1 < v2` implies `movingTime(v2) ≤ movingTime(v1)`. -/
theorem movingTime_antitone (segs : List Segment) (p : Profile) (c v1 v2 : ℚ)
    (hlen : ∀ s ∈ segs, 0 ≤ s.lengthM) (h1 : 3 ≤ v1) (h12 : v1 < v2) (h2 : v2 ≤ 25)
    (hc0 : 0 ≤ c) (hc1 : c ≤ 1) :
    timeLE (calculateMovingTimeForVflat segs v2 p c)
      (calculateMovingTimeForVflat segs v1 p c) := by
  have hv1 : 0 < v1 := by linarith
  have hv2 : 0 < v2 := by linarith
  have hpos1 : ∀ s ∈ segs, 0 < calculateSpeedForSlope s.slopePct v1 p c :=
    fun s _ => speed_pos s.slopePct v1 c p hv1 hc0 hc1
  have hpos2 : ∀ s ∈ segs, 0 < calculateSpeedForSlope s.slopePct v2 p c :=
    fun s _ => speed_pos s.slopePct v2 c p hv2 hc0 hc1
  rw [movingTime_eq_sum segs v1 c p hpos1, movingTime_eq_sum segs v2 c p hpos2]
  show (segs.map
      (fun s => s.lengthM / 1000 / calculateSpeedForSlope s.slopePct v2 p c * 3600)).sum ≤
    (segs.map
      (fun s => s.lengthM / 1000 / calculateSpeedForSlope s.slopePct v1 p c * 3600)).sum
  apply List.sum_le_sum
  intro s hs
  obtain ⟨hp1, hmono⟩ := speed_pos_mono s.slopePct v1 v2 c p hv1 (le_of_lt h12) hc0 hc1
  have hl : 0 ≤ s.lengthM / 1000 := by
    have := hlen s hs
    positivity
  gcongr

/-- C3 witness: a single 250 m segment at 4% slope, flat speeds 10 and 12. -/
theorem movingTime_antitone_witness :
    timeLE (calculateMovingTimeForVflat [⟨0, 250, 250, 10, 4⟩] 12 .trained (1/2))
      (calculateMovingTimeForVflat [⟨0, 250, 250, 10, 4⟩] 10 .trained (1/2)) :=
  movingTime_antitone [⟨0, 250, 250, 10, 4⟩] .trained (1/2) 10 12
    (by intro s hs; rw [List.mem_singleton] at hs; subst hs; norm_num)
    (by norm_num) (by norm_num) (by norm_num) (by norm_num) (by norm_num)

/-- C8: `calculateMovingTimeForVflat` returns `Infinity` exactly when a
segment's resolved speed is non-positive (non-finite speeds cannot arise in
exact arithmetic); when all speeds are positive it returns the finite sum of
`(lengthKm / speed) * 3600`; and under the precondition `vFlat > 0`, caution
in [0,1] (slopes are finite rationals), every speed is strictly positive, so
the `Infinity` branch is unreachable and the total is finite. -/
theorem movingTime_spec (segs : List Segment) (v c : ℚ) (p : Profile) :
    (calculateMovingTimeForVflat segs v p c = none ↔
      ∃ s ∈ segs, calculateSpeedForSlope s.slopePct v p c ≤ 0) ∧
    ((∀ s ∈ segs, 0 < calculateSpeedForSlope s.slopePct v p c) →
      calculateMovingTimeForVflat segs v p c =
        some ((segs.map
          (fun s => s.lengthM / 1000 / calculateSpeedForSlope s.slopePct v p c * 3600)).sum)) ∧
    (0 < v → 0 ≤ c → c ≤ 1 →
      (∀ s ∈ segs, 0 < calculateSpeedForSlope s.slopePct v p c) ∧
      ∃ t, calculateMovingTimeForVflat segs v p c = some t) := by
  refine ⟨movingTime_none_iff segs v c p, movingTime_eq_sum segs v c p, ?_⟩
  intro hv hc0 hc1
  have hpos : ∀ s ∈ segs, 0 < calculateSpeedForSlope s.slopePct v p c :=
    fun s _ => speed_pos s.slopePct v c p hv hc0 hc1
  exact ⟨hpos, _, movingTime_eq_sum segs v c p hpos⟩

/-- C8 witness: the preconditioned part applied at flat speed 10, caution 1/2,
on a one-segment list. -/
theorem movingTime_spec_witness :
    (∀ s ∈ [(⟨0, 250, 250, 0, 0⟩ : Segment)],
      0 < calculateSpeedForSlope s.slopePct 10 .trained (1/2)) ∧
    ∃ t, calculateMovingTimeForVflat [⟨0, 250, 250, 0, 0⟩] 10 .trained (1/2) = some t :=
  (movingTime_spec [⟨0, 250, 250, 0, 0⟩] 10 (1/2) .trained).2.2
    (by norm_num) (by norm_num) (by norm_num)

/-- The forward pass preserves length. -/
theorem fillForwardPass_length (last : Option ℚ) (l : List (Option ℚ)) :
    (fillForwardPass last l).length = l.length := by
  induction l generalizing last with
  | nil => rfl
  | cons x xs ih =>
    cases x with
    | some v => simp [fillForwardPass, ih]
    | none => cases last <;> simp [fillForwardPass, ih]

/-- The backward pass preserves length. -/
theorem fillBackwardPass_length (l : List (Option ℚ)) :
    (fillBackwardPass l).length = l.length := by
  induction l with
  | nil => rfl
  | cons x xs ih => simp [fillBackwardPass, ih]

/-- Pushing the carried value through one cons. -/
theorem fwdVal_cons (last x : Option ℚ) (xs : List (Option ℚ)) (i : ℕ) :
    fwdVal last (x :: xs) (i + 1) =
      fwdVal (match x with | some v => some v | none => last) xs i := by
  unfold fwdVal
  show (match (match lastFiniteUpTo xs i with | some v => some v | none => x) with
    | some v => some v | none => last) = _
  cases hxs : lastFiniteUpTo xs i <;> cases x <;> simp

/-- The forward pass writes, at each index, the nearest preceding-or-self
finite value, or the carried-in value when there is none. -/
theorem fillForwardPass_getD (l : List (Option ℚ)) (last : Option ℚ) (i : ℕ)
    (h : i < l.length) :
    (fillForwardPass last l).getD i none = fwdVal last l i := by
  induction l generalizing last i with
  | nil => simp at h
  | cons x xs ih =>
    cases i with
    | zero =>
      cases x with
      | some v => simp [fillForwardPass, fwdVal, lastFiniteUpTo]
      | none => cases last <;> simp [fillForwardPass, fwdVal, lastFiniteUpTo]
    | succ i =>
      rw [fwdVal_cons]
      have hi : i < xs.length := by simpa using h
      cases x with
      | some v => simpa [fillForwardPass] using ih (some v) i hi
      | none => cases last <;> simpa [fillForwardPass] using ih _ i hi

/-- Dropping past an index decomposes the forward pass, with the carried value
re-based at the nearest finite value of the dropped prefix. -/
theorem fillForwardPass_drop (l : List (Option ℚ)) (last : Option ℚ) (i : ℕ) :
    (fillForwardPass last l).drop (i + 1) =
      fillForwardPass (fwdVal last l i) (l.drop (i + 1)) := by
  induction l generalizing last i with
  | nil => simp [fillForwardPass]
  | cons x xs ih =>
    cases i with
    | zero =>
      cases x with
      | some v => simp [fillForwardPass, fwdVal, lastFiniteUpTo]
      | none => cases last <;> simp [fillForwardPass, fwdVal, lastFiniteUpTo]
    | succ i =>
      rw [fwdVal_cons]
      cases x with
      | some v => simpa [fillForwardPass] using ih (some v) i
      | none => cases last <;> simpa [fillForwardPass] using ih _ i

/-- A forward pass starting with no carried value does not change the first
finite value. -/
theorem firstFinite_fillForwardPass (l : List (Option ℚ)) :
    firstFinite (fillForwardPass none l) = firstFinite l := by
  induction l with
  | nil => rfl
  | cons x xs ih =>
    cases x with
    | some v => simp [fillForwardPass, firstFinite]
    | none => simpa [fillForwardPass, firstFinite] using ih

/-- The backward pass keeps finite entries and replaces a non-finite entry by
the first finite value to its right. -/
theorem fillBackwardPass_getD (l : List (Option ℚ)) (i : ℕ) (h : i < l.length) :
    (fillBackwardPass l).getD i none =
      match l.getD i none with
      | some v => some v
      | none => firstFinite (l.drop (i + 1)) := by
  induction l generalizing i with
  | nil => simp at h
  | cons x xs ih =>
    cases i with
    | zero => cases x <;> simp [fillBackwardPass]
    | succ i =>
      have hi : i < xs.length := by simpa using h
      simpa [fillBackwardPass] using ih i hi

/-- `getD` through the final defaulting map. -/
theorem getD_map_optGetD (l : List (Option ℚ)) (i : ℕ) :
    (l.map (fun v => v.getD 0)).getD i 0 = (l.getD i none).getD 0 := by
  induction l generalizing i with
  | nil => simp
  | cons x xs ih =>
    cases i with
    | zero => cases x <;> rfl
    | succ n =>
      rw [List.map_cons, List.getD_cons_succ, List.getD_cons_succ]
      exact ih n

/-- C9: `fillMissingElevation` preserves length and returns only finite
values: each entry is the entry's own value when finite, else the nearest
preceding finite value (forward fill), else the nearest following finite
value (backward fill of the leading prefix), else 0. -/
theorem fillMissingElevation_spec (l : List (Option ℚ)) :
    (fillMissingElevation l).length = l.length ∧
    ∀ i, i < l.length → (fillMissingElevation l).getD i 0 = specFillAt l i := by
  constructor
  · unfold fillMissingElevation
    rw [List.length_map, fillBackwardPass_length, fillForwardPass_length]
  · intro i hi
    unfold fillMissingElevation
    rw [getD_map_optGetD]
    have hflen : i < (fillForwardPass none l).length := by
      rw [fillForwardPass_length]; exact hi
    rw [fillBackwardPass_getD _ i hflen, fillForwardPass_getD l none i hi]
    unfold specFillAt
    cases hlf : lastFiniteUpTo l i with
    | some v => simp [fwdVal, hlf]
    | none =>
      have hfw : fwdVal none l i = none := by unfold fwdVal; rw [hlf]
      rw [hfw]
      show (firstFinite ((fillForwardPass none l).drop (i + 1))).getD 0 = _
      rw [fillForwardPass_drop l none i, hfw, firstFinite_fillForwardPass]

/-- C9 witness: the theorem applied to a sequence with leading and trailing
non-finite entries, at index 0. -/
theorem fillMissingElevation_spec_witness :
    (fillMissingElevation [none, some 3, none]).getD 0 0 =
      specFillAt [none, some 3, none] 0 :=
  (fillMissingElevation_spec [none, some 3, none]).2 0 (by norm_num)

/-- Every resampled point carries exactly its target distance. -/
theorem resampleGo_map_distanceM (pts : List Point) (cum : List ℚ) (ts : List ℚ) :
    ∀ (i j : ℕ), (resampleGo pts cum ts i j).map (fun p => p.distanceM) = ts := by
  induction ts with
  | nil => intro i j; rfl
  | cons t rest ih =>
    intro i j
    simp only [resampleGo, List.map_cons]
    exact congrArg (t :: ·) (ih (i + 1) _)

/-- The distances of the resampled points are exactly the target list. -/
theorem resampledDistances_eq (pts : List Point) (cum : List ℚ) (stepM : ℚ) :
    resampledDistances pts cum stepM = resampleTargets (cum.getLastD 0) stepM := by
  unfold resampledDistances resamplePoints
  exact resampleGo_map_distanceM pts cum _ 0 1

/-- Faithfulness of the closed-form target list: the loop
`for (d = 0; d < total; d += stepM)` pushes exactly the multiples
`k·stepM < total`. -/
theorem resampleTargets_mem_iff (total stepM : ℚ) (h : 0 < stepM) (k : ℕ) :
    (k : ℚ) * stepM < total ↔ k < ⌈total / stepM⌉₊ := by
  rw [Nat.lt_ceil, lt_div_iff h]

/-- Length of the target list. -/
theorem resampleTargets_length (total stepM : ℚ) :
    (resampleTargets total stepM).length = ⌈total / stepM⌉₊ + 1 := by
  simp [resampleTargets]

/-- Entries of the target list below the final one. -/
theorem resampleTargets_getD_lt (total stepM : ℚ) (i : ℕ) (h : i < ⌈total / stepM⌉₊) :
    (resampleTargets total stepM).getD i 0 = (i : ℚ) * stepM := by
  unfold resampleTargets
  have hlen : i < ((List.range ⌈total / stepM⌉₊).map (fun k : ℕ => (k : ℚ) * stepM)).length := by
    simpa using h
  rw [List.getD_append _ _ _ _ hlen, List.getD_eq_getElem _ _ hlen]
  simp

/-- The final entry of the target list is the exact total. -/
theorem resampleTargets_getD_last (total stepM : ℚ) :
    (resampleTargets total stepM).getD ⌈total / stepM⌉₊ 0 = total := by
  unfold resampleTargets
  rw [List.getD_append_right]
  · simp
  · simp

/-- The last target equals the total distance. -/
theorem resampleTargets_getLastD (total stepM : ℚ) :
    (resampleTargets total stepM).getLastD 0 = total :=
  List.getLastD_concat _ _ _

/-- A non-decreasing chain starting at its head bounds the last element from
below by the head. -/
theorem chain_headD_le_getLastD : ∀ (l : List ℚ), List.Chain' (fun a b => a ≤ b) l →
    l.headD 0 ≤ l.getLastD 0
  | [], _ => le_rfl
  | [_], _ => le_rfl
  | a :: b :: t, h => by
    have h1 : a ≤ b := (List.chain'_cons.mp h).1
    have h2 := chain_headD_le_getLastD (b :: t) (List.chain'_cons.mp h).2
    simp only [List.headD, List.getLastD_cons] at *
    linarith

/-- Telescoping: the segment lengths between consecutive resampled points sum
to the last distance minus the first. -/
theorem segmentsOfResampled_sum (a : RPoint) (l : List RPoint) :
    ((segmentsOfResampled (a :: l)).map (fun s => s.lengthM)).sum =
      ((a :: l).getLastD default).distanceM - a.distanceM := by
  induction l generalizing a with
  | nil => simp [segmentsOfResampled, List.getLastD]
  | cons b rest ih =>
    simp only [segmentsOfResampled, mkSegment, List.map_cons, List.sum_cons]
    rw [ih b]
    simp only [List.getLastD_cons]
    ring

/-- C6: for a track of at least 2 points with a monotone cumulative-distance
sequence starting at 0 and a positive step, the resampled distances strictly
increase, the gap between consecutive points equals the step except for a
possibly shorter final interval, the last resampled distance equals the total
track distance exactly, and the resulting segment lengths sum to the total
cumulative distance. -/
theorem resamplePoints_invariants (pts : List Point) (cum : List ℚ) (stepM : ℚ)
    (hpts : 2 ≤ pts.length) (hlen : cum.length = pts.length)
    (hchain : List.Chain' (fun a b => a ≤ b) cum) (hhead : cum.headD 0 = 0)
    (hstep : 0 < stepM) :
    (∀ i, i + 1 < (resampledDistances pts cum stepM).length →
      (resampledDistances pts cum stepM).getD i 0 <
        (resampledDistances pts cum stepM).getD (i + 1) 0) ∧
    (∀ i, i + 2 < (resampledDistances pts cum stepM).length →
      (resampledDistances pts cum stepM).getD (i + 1) 0 -
        (resampledDistances pts cum stepM).getD i 0 = stepM) ∧
    (2 ≤ (resampledDistances pts cum stepM).length →
      (resampledDistances pts cum stepM).getLastD 0 -
        (resampledDistances pts cum stepM).getD
          ((resampledDistances pts cum stepM).length - 2) 0 ≤ stepM) ∧
    (resampledDistances pts cum stepM).getLastD 0 = cum.getLastD 0 ∧
    ((segmentsOfResampled (resamplePoints pts cum stepM)).map (fun s => s.lengthM)).sum =
      cum.getLastD 0 := by
  have htotal : 0 ≤ cum.getLastD 0 := by
    have := chain_headD_le_getLastD cum hchain
    rw [hhead] at this
    exact this
  rw [resampledDistances_eq pts cum stepM, resampleTargets_length]
  refine ⟨?_, ?_, ?_, resampleTargets_getLastD _ _, ?_⟩
  · intro i hi
    rcases Nat.lt_or_ge (i + 1) ⌈cum.getLastD 0 / stepM⌉₊ with h | h
    · rw [resampleTargets_getD_lt _ _ i (by omega), resampleTargets_getD_lt _ _ (i + 1) h]
      have : (i : ℚ) < ((i : ℚ) + 1) := by linarith
      push_cast
      nlinarith
    · have heq : i + 1 = ⌈cum.getLastD 0 / stepM⌉₊ := by omega
      rw [resampleTargets_getD_lt _ _ i (by omega), heq, resampleTargets_getD_last]
      exact (resampleTargets_mem_iff _ stepM hstep i).mpr (by omega)
  · intro i hi
    rw [resampleTargets_getD_lt _ _ i (by omega), resampleTargets_getD_lt _ _ (i + 1) (by omega)]
    push_cast
    ring
  · intro hlen2
    have hn : 1 ≤ ⌈cum.getLastD 0 / stepM⌉₊ := by omega
    have hidx : ⌈cum.getLastD 0 / stepM⌉₊ + 1 - 2 = ⌈cum.getLastD 0 / stepM⌉₊ - 1 := by omega
    rw [hidx, resampleTargets_getLastD,
      resampleTargets_getD_lt _ _ (⌈cum.getLastD 0 / stepM⌉₊ - 1) (by omega)]
    have hceil : cum.getLastD 0 / stepM ≤ (⌈cum.getLastD 0 / stepM⌉₊ : ℚ) := Nat.le_ceil _
    have hmul : cum.getLastD 0 ≤ (⌈cum.getLastD 0 / stepM⌉₊ : ℚ) * stepM :=
      (div_le_iff hstep).mp hceil
    have hcast : ((⌈cum.getLastD 0 / stepM⌉₊ - 1 : ℕ) : ℚ) =
        (⌈cum.getLastD 0 / stepM⌉₊ : ℚ) - 1 := by
      push_cast [Nat.cast_sub hn]
      ring
    rw [hcast]
    nlinarith
  · have hmap : (resamplePoints pts cum stepM).map (fun p => p.distanceM) =
        resampleTargets (cum.getLastD 0) stepM := by
      rw [← resampledDistances_eq]
      rfl
    cases hr : resamplePoints pts cum stepM with
    | nil =>
      exfalso
      have := congrArg List.length hmap
      rw [hr, resampleTargets_length] at this
      simp at this
    | cons a rest =>
      rw [segmentsOfResampled_sum a rest, ← hr]
      have hlast : ((resamplePoints pts cum stepM).getLastD default).distanceM =
          cum.getLastD 0 := by
        rw [← List.getLastD_map (fun p : RPoint => p.distanceM) (resamplePoints pts cum stepM)
          default, hmap]
        have hd0 : (default : RPoint).distanceM = (0 : ℚ) := rfl
        simp only [hd0]
        exact resampleTargets_getLastD _ _
      have hheadr : a.distanceM = (resampleTargets (cum.getLastD 0) stepM).headD 0 := by
        have := congrArg (fun l => l.headD 0) hmap
        rw [hr] at this
        simpa using this
      rw [hlast]
      rcases Nat.eq_zero_or_pos ⌈cum.getLastD 0 / stepM⌉₊ with hn | hn
      · have hle : cum.getLastD 0 / stepM ≤ 0 := Nat.ceil_eq_zero.mp hn
        have hz : cum.getLastD 0 = 0 := by
          have := (div_le_iff hstep).mp hle
          rw [zero_mul] at this
          linarith
        have hhd : (resampleTargets (cum.getLastD 0) stepM).headD 0 = cum.getLastD 0 := by
          unfold resampleTargets
          rw [hn]
          simp
        rw [hheadr, hhd, hz]
        ring
      · have hhd : (resampleTargets (cum.getLastD 0) stepM).headD 0 = 0 := by
          have h0 := resampleTargets_getD_lt (cum.getLastD 0) stepM 0 hn
          rw [Nat.cast_zero, zero_mul] at h0
          cases hts : resampleTargets (cum.getLastD 0) stepM with
          | nil =>
            have := congrArg List.length hts
            rw [resampleTargets_length] at this
            simp at this
          | cons x xs =>
            rw [hts] at h0
            simpa using h0
        rw [hheadr, hhd]
        ring

/-- C6 witness: two points 500 m apart, resampled every 250 m. -/
theorem resamplePoints_invariants_witness :
    (∀ i, i + 1 < (resampledDistances [⟨0, 0, 0⟩, ⟨0, 0, 100⟩] [0, 500] 250).length →
      (resampledDistances [⟨0, 0, 0⟩, ⟨0, 0, 100⟩] [0, 500] 250).getD i 0 <
        (resampledDistances [⟨0, 0, 0⟩, ⟨0, 0, 100⟩] [0, 500] 250).getD (i + 1) 0) ∧
    (∀ i, i + 2 < (resampledDistances [⟨0, 0, 0⟩, ⟨0, 0, 100⟩] [0, 500] 250).length →
      (resampledDistances [⟨0, 0, 0⟩, ⟨0, 0, 100⟩] [0, 500] 250).getD (i + 1) 0 -
        (resampledDistances [⟨0, 0, 0⟩, ⟨0, 0, 100⟩] [0, 500] 250).getD i 0 = 250) ∧
    (2 ≤ (resampledDistances [⟨0, 0, 0⟩, ⟨0, 0, 100⟩] [0, 500] 250).length →
      (resampledDistances [⟨0, 0, 0⟩, ⟨0, 0, 100⟩] [0, 500] 250).getLastD 0 -
        (resampledDistances [⟨0, 0, 0⟩, ⟨0, 0, 100⟩] [0, 500] 250).getD
          ((resampledDistances [⟨0, 0, 0⟩, ⟨0, 0, 100⟩] [0, 500] 250).length - 2) 0 ≤ 250) ∧
    (resampledDistances [⟨0, 0, 0⟩, ⟨0, 0, 100⟩] [0, 500] 250).getLastD 0 =
      ([0, 500] : List ℚ).getLastD 0 ∧
    ((segmentsOfResampled (resamplePoints [⟨0, 0, 0⟩, ⟨0, 0, 100⟩] [0, 500] 250)).map
      (fun s => s.lengthM)).sum = ([0, 500] : List ℚ).getLastD 0 :=
  resamplePoints_invariants [⟨0, 0, 0⟩, ⟨0, 0, 100⟩] [0, 500] 250 (by norm_num)
    (by norm_num) (by norm_num [List.chain'_cons]) (by norm_num) (by norm_num)

/-- `Math.round` is the identity on integers. -/
theorem jsRound_intCast (n : ℤ) : jsRound (n : ℚ) = n := by
  unfold jsRound
  rw [add_comm, Int.floor_add_int]
  norm_num

/-- Casting a sum of integer segment times to ℚ. -/
theorem sum_timeSec_cast (ds : List DetailedSegment) :
    ((ds.map (fun s => (s.timeSec : ℚ))).sum) = (((ds.map (fun s => s.timeSec)).sum : ℤ) : ℚ) := by
  induction ds with
  | nil => simp
  | cons a l ih => simp [ih]

/-- C5: the per-kilometer row's reported time and the per-stage reported
moving time each equal, as exact integers, the sum of the rounded per-segment
times of the segments contained in the bucket/stage; and each detailed
segment's stored time is the nearest-second rounding of its unrounded time,
so the aggregates sum the rounded values, not the unrounded ones. -/
theorem groupTimes_sum_rounded (base : List Segment) (v c : ℚ) (p : Profile) (k : ℤ)
    (rawPoints : List Point) (cumRaw : List ℚ) (checkpoints : List (ℚ × ℚ))
    (fromKm toKm : ℚ) :
    (perKmEntryOf (base.map (detailSegment v p c)) k).timeSec =
      ((perKmBucket (base.map (detailSegment v p c)) k).map (fun s => s.timeSec)).sum ∧
    (stepEntryOf (base.map (detailSegment v p c)) rawPoints cumRaw checkpoints
        fromKm toKm).movingSec =
      ((stepSegsOf (base.map (detailSegment v p c)) (fromKm * 1000) (toKm * 1000)).map
        (fun s => s.timeSec)).sum ∧
    ∀ s ∈ base, (detailSegment v p c s).timeSec = jsRound (segTimeRawSec s v p c) := by
  refine ⟨?_, ?_, fun s _ => rfl⟩
  · show jsRound ((perKmBucket (base.map (detailSegment v p c)) k).map
      (fun s => (s.timeSec : ℚ))).sum = _
    rw [sum_timeSec_cast, jsRound_intCast]
  · show jsRound ((stepSegsOf (base.map (detailSegment v p c)) (fromKm * 1000) (toKm * 1000)).map
      (fun s => (s.timeSec : ℚ))).sum = _
    rw [sum_timeSec_cast, jsRound_intCast]

/-- C5 witness: a one-segment computation at flat speed 10 grouped into
kilometer 0 and the stage [0 km, 1 km). -/
theorem groupTimes_sum_rounded_witness :
    (perKmEntryOf ([⟨0, 250, 250, 0, 0⟩].map (detailSegment 10 .trained (1/2))) 0).timeSec =
      ((perKmBucket ([⟨0, 250, 250, 0, 0⟩].map (detailSegment 10 .trained (1/2))) 0).map
        (fun s => s.timeSec)).sum ∧
    (stepEntryOf ([⟨0, 250, 250, 0, 0⟩].map (detailSegment 10 .trained (1/2))) [] [] [] 0
        1).movingSec =
      ((stepSegsOf ([⟨0, 250, 250, 0, 0⟩].map (detailSegment 10 .trained (1/2))) (0 * 1000)
        (1 * 1000)).map (fun s => s.timeSec)).sum ∧
    ∀ s ∈ [(⟨0, 250, 250, 0, 0⟩ : Segment)],
      (detailSegment 10 .trained (1/2) s).timeSec = jsRound (segTimeRawSec s 10 .trained (1/2)) :=
  groupTimes_sum_rounded [⟨0, 250, 250, 0, 0⟩] 10 (1/2) .trained 0 [] [] [] 0 1

/-- The raw gain accumulator equals the sum of the positive parts of the
consecutive deltas. -/
theorem dPlusTotalOf_eq : ∀ (l : List ℚ),
    dPlusTotalOf l = ((consecutiveDeltas l).map (fun d => max d 0)).sum
  | [] => rfl
  | [_] => rfl
  | a :: b :: rest => by
    simp only [dPlusTotalOf, consecutiveDeltas, List.map_cons, List.sum_cons]
    rw [dPlusTotalOf_eq (b :: rest)]
    congr 1
    rcases le_or_lt (b - a) 0 with h | h
    · rw [if_neg (not_lt.mpr h), max_eq_right h]
    · rw [if_pos h, max_eq_left (le_of_lt h)]

/-- The raw loss accumulator equals the sum of the positive parts of the
negated consecutive deltas. -/
theorem dMinusTotalOf_eq : ∀ (l : List ℚ),
    dMinusTotalOf l = ((consecutiveDeltas l).map (fun d => max (-d) 0)).sum
  | [] => rfl
  | [_] => rfl
  | a :: b :: rest => by
    simp only [dMinusTotalOf, consecutiveDeltas, List.map_cons, List.sum_cons]
    rw [dMinusTotalOf_eq (b :: rest)]
    congr 1
    rcases le_or_lt (b - a) 0 with h | h
    · rcases eq_or_lt_of_le h with h1 | h1
      · rw [if_neg (by rw [h1]; exact lt_irrefl 0), h1]
        simp
      · rw [if_pos h1, max_eq_left (by linarith)]
    · rw [if_neg (by linarith), max_eq_right (by linarith)]

/-- C4: whenever `calculatePacing` returns a result, the all-points elevation
totals are computed from the raw, unsmoothed elevations of the original
points: the gain is the (rounded) sum of the positive consecutive deltas, the
loss the (rounded) sum of the absolute values of the negative deltas, and
zero deltas contribute to neither. -/
theorem allPoints_totals_from_raw (hav : Point → Point → ℚ) (rawPoints : List Point)
    (targetTotalSec : ℚ) (profile : Profile) (prudence : ℚ)
    (checkpoints : List (ℚ × ℚ)) (restPeriods : ℚ × ℚ)
    (segmentLengthM : ℚ) (smoothingWindow : ℕ)
    (h2 : 2 ≤ rawPoints.length)
    (hstop : checkpointStopSecOf checkpoints + restStopSecOf restPeriods < targetTotalSec) :
    ∃ r, calculatePacing hav rawPoints targetTotalSec profile prudence checkpoints restPeriods
        segmentLengthM smoothingWindow = .ok r ∧
      r.totals.dPlusMAllPoints =
        jsRound (((consecutiveDeltas (rawPoints.map (fun q => q.ele))).map
          (fun d => max d 0)).sum) ∧
      r.totals.dMinusMAllPoints =
        jsRound (((consecutiveDeltas (rawPoints.map (fun q => q.ele))).map
          (fun d => max (-d) 0)).sum) := by
  have hok : calculatePacing hav rawPoints targetTotalSec profile prudence checkpoints
      restPeriods segmentLengthM smoothingWindow =
      .ok (buildPacingResult hav rawPoints targetTotalSec profile prudence checkpoints
        (checkpointStopSecOf checkpoints + restStopSecOf restPeriods)
        (targetTotalSec - (checkpointStopSecOf checkpoints + restStopSecOf restPeriods))
        segmentLengthM smoothingWindow) := by
    simp only [calculatePacing]
    rw [if_neg (by omega), if_neg (by intro hc; linarith)]
  refine ⟨_, hok, ?_, ?_⟩
  · show jsRound (dPlusTotalOf (rawPoints.map (fun q => q.ele))) = _
    rw [dPlusTotalOf_eq]
  · show jsRound (dMinusTotalOf (rawPoints.map (fun q => q.ele))) = _
    rw [dMinusTotalOf_eq]

/-- C4 witness: a two-point track with no stops. -/
theorem allPoints_totals_from_raw_witness :
    ∃ r, calculatePacing (fun _ _ => 0) [⟨0, 0, 0⟩, ⟨0, 0, 1⟩] 3600 .trained (1/2) [] (0, 0)
        250 9 = .ok r ∧
      r.totals.dPlusMAllPoints =
        jsRound (((consecutiveDeltas (([⟨0, 0, 0⟩, ⟨0, 0, 1⟩] : List Point).map
          (fun q => q.ele))).map (fun d => max d 0)).sum) ∧
      r.totals.dMinusMAllPoints =
        jsRound (((consecutiveDeltas (([⟨0, 0, 0⟩, ⟨0, 0, 1⟩] : List Point).map
          (fun q => q.ele))).map (fun d => max (-d) 0)).sum) :=
  allPoints_totals_from_raw (fun _ _ => 0) [⟨0, 0, 0⟩, ⟨0, 0, 1⟩] 3600 .trained (1/2) [] (0, 0)
    250 9 (by norm_num) (by norm_num [checkpointStopSecOf, restStopSecOf])

/-- C7: when the total planned stop time (checkpoint stops plus rest periods)
reaches or exceeds the parsed target total time, `calculatePacing` fails with
the stop-time validation error and produces no result; otherwise the check
passes and calibration proceeds with target moving time = target total time
minus total stop time. -/
theorem stopTime_validation (hav : Point → Point → ℚ) (rawPoints : List Point)
    (targetTotalSec : ℚ) (profile : Profile) (prudence : ℚ)
    (checkpoints : List (ℚ × ℚ)) (restPeriods : ℚ × ℚ)
    (segmentLengthM : ℚ) (smoothingWindow : ℕ)
    (h2 : 2 ≤ rawPoints.length) :
    (checkpointStopSecOf checkpoints + restStopSecOf restPeriods ≥ targetTotalSec →
      calculatePacing hav rawPoints targetTotalSec profile prudence checkpoints restPeriods
        segmentLengthM smoothingWindow = .error .stopTimeExceedsTarget) ∧
    (checkpointStopSecOf checkpoints + restStopSecOf restPeriods < targetTotalSec →
      ∃ r, calculatePacing hav rawPoints targetTotalSec profile prudence checkpoints restPeriods
          segmentLengthM smoothingWindow = .ok r ∧
        r.totals.movingTargetSec =
          targetTotalSec - (checkpointStopSecOf checkpoints + restStopSecOf restPeriods) ∧
        r.vFlatKmh = findVflatForTargetTime
          (pipelineSegments hav rawPoints segmentLengthM smoothingWindow)
          (targetTotalSec - (checkpointStopSecOf checkpoints + restStopSecOf restPeriods))
          profile prudence 3 25 40) := by
  constructor
  · intro hge
    simp only [calculatePacing]
    rw [if_neg (by omega), if_pos (by linarith)]
  · intro hlt
    have hok : calculatePacing hav rawPoints targetTotalSec profile prudence checkpoints
        restPeriods segmentLengthM smoothingWindow =
        .ok (buildPacingResult hav rawPoints targetTotalSec profile prudence checkpoints
          (checkpointStopSecOf checkpoints + restStopSecOf restPeriods)
          (targetTotalSec - (checkpointStopSecOf checkpoints + restStopSecOf restPeriods))
          segmentLengthM smoothingWindow) := by
      simp only [calculatePacing]
      rw [if_neg (by omega), if_neg (by intro hc; linarith)]
    exact ⟨_, hok, rfl, rfl⟩

/-- C7 witness: a 5-minute checkpoint stop against a 60-second target. -/
theorem stopTime_validation_witness :
    calculatePacing (fun _ _ => 0) [⟨0, 0, 0⟩, ⟨0, 0, 1⟩] 60 .trained (1/2) [(1, 5)] (0, 0)
      250 9 = .error .stopTimeExceedsTarget :=
  (stopTime_validation (fun _ _ => 0) [⟨0, 0, 0⟩, ⟨0, 0, 1⟩] 60 .trained (1/2) [(1, 5)] (0, 0)
    250 9 (by norm_num)).1 (by norm_num [checkpointStopSecOf, restStopSecOf])
